import Mathlib

/-!
Verification of the finance web application's aggregation, budget-evaluation
and reminder-scheduling logic. Numeric amounts are embedded as rationals; the
non-finite result of a JavaScript division by zero (NaN or infinity) is
embedded as `none` in an `Option` percentage field.
-/

namespace FinanceApp

/-- The two-valued transaction kind (`type` column, checked by the schema). -/
inductive TxKind
  | income
  | expense
deriving DecidableEq

/-- The joined category row (`categories (name, color)`). -/
structure CategoryInfo where
  name : String
  color : String
deriving DecidableEq

/-- A transaction row as consumed by the aggregation code: its `type`, its
`amount`, and the (possibly absent) joined category. -/
structure Tx where
  type : TxKind
  amount : ℚ
  categories : Option CategoryInfo
deriving DecidableEq

/-- A bill-reminder row (`bill_reminders`): `due_date` is a day of month. -/
structure BillReminder where
  title : String
  amount : ℚ
  due_date : Nat
  is_active : Bool
deriving DecidableEq

/-! ### Calendar arithmetic

`new Date(year, month + 1, 0).getDate()` in the source evaluates to the number
of days of the current month, with Gregorian leap-year rules. -/

/-- Gregorian leap-year test, as implemented by the JavaScript Date object. -/
def isLeapYear (y : Nat) : Bool :=
  (y % 4 == 0 && y % 100 != 0) || y % 400 == 0

/-- Number of days of month `m` (1..12) of year `y`, as computed by
`new Date(y, m, 0).getDate()` in the source. -/
def daysInMonth (y m : Nat) : Nat :=
  if m = 2 then (if isLeapYear y then 29 else 28)
  else if m = 4 ∨ m = 6 ∨ m = 9 ∨ m = 11 then 30
  else 31

/-! ### Reminder scheduler (Reminders page and Header) -/

/-- `getDaysUntilDue` from the Reminders page: `days = dueDate - today`; when
negative, the due day has passed this month and the code wraps with
`daysInMonth - today + dueDate`. `todayDay` is the current day of month,
`year`/`month` the current year and (1-based) month. -/
def getDaysUntilDue (dueDate todayDay year month : Nat) : ℤ :=
  let days : ℤ := (dueDate : ℤ) - (todayDay : ℤ)
  if days < 0 then ((daysInMonth year month : ℤ) - (todayDay : ℤ)) + (dueDate : ℤ)
  else days

/-- The five urgency classes rendered by `getStatusBadge`. -/
inductive Urgency
  | inactiveU
  | dueToday
  | imminent
  | upcoming
  | scheduled
deriving DecidableEq

/-- The classification branch structure of `getStatusBadge`, on an already
computed `daysUntil`: inactive wins, then due today, then the 3-day and
7-day windows, else scheduled. -/
def classify (daysUntil : ℤ) (is_active : Bool) : Urgency :=
  if !is_active then Urgency.inactiveU
  else if daysUntil = 0 then Urgency.dueToday
  else if daysUntil ≤ 3 then Urgency.imminent
  else if daysUntil ≤ 7 then Urgency.upcoming
  else Urgency.scheduled

/-- `getStatusBadge` from the Reminders page: classifies a bill by its due day
and active flag on the current date. -/
def getStatusBadge (dueDate todayDay year month : Nat) (is_active : Bool) : Urgency :=
  classify (getDaysUntilDue dueDate todayDay year month) is_active

/-- The `upcomingReminders` filter of the Reminders page: active reminders
whose month-wrapped days-until-due is at most 7. -/
def upcomingReminders (reminders : List BillReminder) (todayDay year month : Nat) :
    List BillReminder :=
  reminders.filter fun r =>
    r.is_active && decide (getDaysUntilDue r.due_date todayDay year month ≤ 7)

/-- The Header badge count (`loadNotifications`): the store query keeps only
active bills, then the filter keeps bills with `0 ≤ due_date - today ≤ 3`
using the raw difference, without month-wrap. -/
def headerBadgeCount (bills : List BillReminder) (todayDay : Nat) : Nat :=
  ((bills.filter fun b => b.is_active).filter fun b =>
    decide (0 ≤ (b.due_date : ℤ) - (todayDay : ℤ)) &&
    decide ((b.due_date : ℤ) - (todayDay : ℤ) ≤ 3)).length

/-- Modelled from the spec: `upcomingCount(bills, today)` is the number of
active bills whose month-wrapped `daysUntilDue` is at most 7 (spec section
4.3); no function of this name exists in the source, which computes the badge
in `loadNotifications` and the banner via `upcomingReminders`. -/
def upcomingCount (bills : List BillReminder) (todayDay year month : Nat) : Nat :=
  bills.countP fun b =>
    b.is_active && decide (getDaysUntilDue b.due_date todayDay year month ≤ 7)

/-! ### Budget evaluator (Budget page) -/

/-- Budget status, encoded in the source by the colors of `getProgressColor`:
red for exceeded, amber for warning, green for on track. -/
inductive BudgetStatus
  | exceeded
  | warning
  | onTrack
deriving DecidableEq

/-- `getProgressColor` from the Budget page. -/
def getProgressColor (percentage : ℚ) : String :=
  if percentage ≥ 100 then "bg-red-600"
  else if percentage ≥ 80 then "bg-amber-600"
  else "bg-green-600"

/-- The branch structure of `getProgressColor` as a status value. -/
def budgetStatus (percentage : ℚ) : BudgetStatus :=
  if percentage ≥ 100 then BudgetStatus.exceeded
  else if percentage ≥ 80 then BudgetStatus.warning
  else BudgetStatus.onTrack

/-- The color the source renders for each status. -/
def statusColor : BudgetStatus → String
  | BudgetStatus.exceeded => "bg-red-600"
  | BudgetStatus.warning => "bg-amber-600"
  | BudgetStatus.onTrack => "bg-green-600"

/-- `const percentage = (budget.spent / budget.amount) * 100` from the Budget
page. -/
def budgetPercentage (amount spent : ℚ) : ℚ :=
  spent / amount * 100

/-! ### Aggregator (Analytics and Dashboard pages) -/

/-- `t.categories?.name || 'Other'`: a missing category, or a falsy (empty)
name, displays as Other. -/
def catName (t : Tx) : String :=
  match t.categories with
  | none => "Other"
  | some c => if c.name = "" then "Other" else c.name

/-- `t.categories?.color || '#6366f1'`. -/
def catColor (t : Tx) : String :=
  match t.categories with
  | none => "#6366f1"
  | some c => if c.color = "" then "#6366f1" else c.color

/-- One accumulated entry of `expensesByCategory`, keyed by name; the color is
the one recorded when the key was created. -/
structure CatEntry where
  name : String
  amount : ℚ
  color : String
deriving DecidableEq

/-- `expensesByCategory[categoryName].amount += amount`, creating the entry
with `{ amount: 0, color }` first when the key is absent. The association
list records keys in insertion (first-encounter) order; the order in which
`Object.entries` later enumerates them is modelled by `objectEntries`. -/
def addExpense (acc : List CatEntry) (name color : String) (amt : ℚ) : List CatEntry :=
  match acc with
  | [] => [⟨name, amt, color⟩]
  | e :: rest =>
    if e.name = name then ⟨e.name, e.amount + amt, e.color⟩ :: rest
    else e :: addExpense rest name color amt

/-- The body of the `transactions.forEach` loop of `loadAnalytics`, acting on
the pair (expensesByCategory, totalExpense): expense rows accumulate, income
rows are skipped. -/
def groupStep (acc : List CatEntry × ℚ) (t : Tx) : List CatEntry × ℚ :=
  match t.type with
  | TxKind.expense => (addExpense acc.1 (catName t) (catColor t) t.amount, acc.2 + t.amount)
  | TxKind.income => acc

/-- The whole `forEach` loop of `loadAnalytics`: the per-category breakdown in
first-encounter order paired with the expense total. -/
def groupExpenses (ts : List Tx) : List CatEntry × ℚ :=
  ts.foldl groupStep ([], 0)

/-- One entry of `categoryData`. `percentage` is `none` when the JavaScript
division `amount / totalExpense` is by zero, whose result (NaN or infinity)
is not a rational number. -/
structure CategoryExpense where
  name : String
  amount : ℚ
  color : String
  percentage : Option ℚ
deriving DecidableEq

/-- The `.map` step of `categoryData`: `percentage: (data.amount /
totalExpense) * 100`, undefined (non-finite) when `totalExpense` is zero. -/
def toCategoryExpense (totalExpense : ℚ) (e : CatEntry) : CategoryExpense :=
  { name := e.name
    amount := e.amount
    color := e.color
    percentage :=
      if totalExpense = 0 then none else some (e.amount / totalExpense * 100) }

/-- Descending comparison on `amount`: the order of `.sort((a, b) => b.amount
- a.amount)`. -/
def byAmountDesc (a b : CategoryExpense) : Prop :=
  b.amount ≤ a.amount

instance : DecidableRel byAmountDesc :=
  fun a b => inferInstanceAs (Decidable (b.amount ≤ a.amount))

instance : IsTotal CategoryExpense byAmountDesc :=
  ⟨fun a b => le_total b.amount a.amount⟩

instance : IsTrans CategoryExpense byAmountDesc :=
  ⟨fun _ _ _ hab hbc => le_trans hbc hab⟩

/-- Numeric value of a decimal digit string (the value of an array-index
property key). -/
def digitsToNat (cs : List Char) : Nat :=
  cs.foldl (fun n c => n * 10 + (c.toNat - 48)) 0

/-- Whether a property key is an array index in the JavaScript sense: the
canonical decimal form (digits only, no leading zero except "0" itself) of
an integer below 2^32 - 1. Property enumeration lists such keys first, in
ascending numeric order, before the other string keys in insertion order. -/
def isArrayIndexName (s : String) : Bool :=
  let cs := s.data
  (!cs.isEmpty) && cs.all (fun c => c.isDigit) &&
    (cs == ['0'] || cs.head? != some '0') &&
    digitsToNat cs < 4294967295

/-- Ascending numeric order on array-index entry names. -/
def byIndexAsc (a b : CatEntry) : Prop :=
  digitsToNat a.name.data ≤ digitsToNat b.name.data

instance : DecidableRel byIndexAsc :=
  fun a b => inferInstanceAs (Decidable (digitsToNat a.name.data ≤ digitsToNat b.name.data))

instance : IsTotal CatEntry byIndexAsc :=
  ⟨fun a b => le_total (digitsToNat a.name.data) (digitsToNat b.name.data)⟩

instance : IsTrans CatEntry byIndexAsc :=
  ⟨fun _ _ _ h1 h2 => le_trans h1 h2⟩

/-- The order in which `Object.entries(expensesByCategory)` enumerates the
accumulated entries: array-index-like keys first, in ascending numeric
order, then the remaining keys in insertion (first-encounter) order. -/
def objectEntries (l : List CatEntry) : List CatEntry :=
  List.insertionSort byIndexAsc (l.filter fun e => isArrayIndexName e.name) ++
    l.filter fun e => !isArrayIndexName e.name

/-- `categoryData` from `loadAnalytics`: enumerate the grouped entries in
`Object.entries` order, map them to percentages, then sort descending by
amount. `Array.prototype.sort` is stable, so it is embedded as the stable
insertion sort under `byAmountDesc`. -/
def categoryData (ts : List Tx) : List CategoryExpense :=
  List.insertionSort byAmountDesc
    ((objectEntries (groupExpenses ts).1).map (toCategoryExpense (groupExpenses ts).2))

/-- Modelled from the spec: first-encountered order of expense category names
(spec section 4.1, tie-breaking order of the breakdown); stated independently
of the accumulating map to compare against it. -/
def firstEncounterNames (ts : List Tx) : List String :=
  ts.foldl
    (fun ns t =>
      match t.type with
      | TxKind.expense => if catName t ∈ ns then ns else ns ++ [catName t]
      | TxKind.income => ns)
    []

/-- The Dashboard statistics record (`Stats`). -/
structure Stats where
  totalIncome : ℚ
  totalExpenses : ℚ
  totalSavings : ℚ
deriving DecidableEq

/-- The aggregation of the Dashboard `loadData`: filter by type, `reduce` the
amounts, savings as the difference. -/
def loadDataStats (ts : List Tx) : Stats :=
  let income := (ts.filter fun t => t.type == TxKind.income).foldl (fun sum t => sum + t.amount) 0
  let expenses := (ts.filter fun t => t.type == TxKind.expense).foldl (fun sum t => sum + t.amount) 0
  { totalIncome := income
    totalExpenses := expenses
    totalSavings := income - expenses }

/-- Modelled from the spec: `totalIncome` is the sum of the amounts of the
records of kind Income (spec section 4.1). -/
def specIncomeSum (ts : List Tx) : ℚ :=
  ((ts.filter fun t => t.type == TxKind.income).map Tx.amount).sum

/-- Modelled from the spec: `totalExpenses` is the sum of the amounts of the
records of kind Expense (spec section 4.1). -/
def specExpenseSum (ts : List Tx) : ℚ :=
  ((ts.filter fun t => t.type == TxKind.expense).map Tx.amount).sum

/-- The body of the per-month accumulation loop of `loadAnalytics`: income
rows add to income, every other row (the kind is two-valued) adds to
expense. -/
def monthStep (p : ℚ × ℚ) (t : Tx) : ℚ × ℚ :=
  match t.type with
  | TxKind.income => (p.1 + t.amount, p.2)
  | TxKind.expense => (p.1, p.2 + t.amount)

/-- The per-month accumulation loop of `loadAnalytics` over one month's
records: the pair (income, expense). -/
def monthAggregate (ts : List Tx) : ℚ × ℚ :=
  ts.foldl monthStep (0, 0)

/-- The state of the `forEach` loop of `loadAnalytics` with the input array
threaded through explicitly, to express that the loop never writes to it. -/
structure AnalyticsLoopState where
  transactions : List Tx
  expensesByCategory : List CatEntry
  totalExpense : ℚ
deriving DecidableEq

/-- The loop body, acting on the explicit state: only the accumulator fields
are updated. -/
def loopBody (s : AnalyticsLoopState) (t : Tx) : AnalyticsLoopState :=
  match t.type with
  | TxKind.expense =>
    { s with
      expensesByCategory := addExpense s.expensesByCategory (catName t) (catColor t) t.amount
      totalExpense := s.totalExpense + t.amount }
  | TxKind.income => s

/-- Run the `forEach` loop of `loadAnalytics` from the freshly fetched input. -/
def runLoop (ts : List Tx) : AnalyticsLoopState :=
  ts.foldl loopBody { transactions := ts, expensesByCategory := [], totalExpense := 0 }

/-! ## Helper lemmas -/

theorem daysInMonth_le (y m : Nat) : daysInMonth y m ≤ 31 := by
  unfold daysInMonth
  split
  · split <;> omega
  · split <;> omega

theorem daysInMonth_pos (y m : Nat) : 1 ≤ daysInMonth y m := by
  unfold daysInMonth
  split
  · split <;> omega
  · split <;> omega

theorem addExpense_sum (l : List CatEntry) (n c : String) (a : ℚ) :
    ((addExpense l n c a).map CatEntry.amount).sum = (l.map CatEntry.amount).sum + a := by
  induction l with
  | nil => simp [addExpense]
  | cons e rest ih =>
    by_cases h : e.name = n
    · simp [addExpense, h]
      ring
    · simp [addExpense, h, ih]
      ring

theorem addExpense_names (l : List CatEntry) (n c : String) (a : ℚ) :
    (addExpense l n c a).map CatEntry.name =
      if n ∈ l.map CatEntry.name then l.map CatEntry.name
      else l.map CatEntry.name ++ [n] := by
  induction l with
  | nil => simp [addExpense]
  | cons e rest ih =>
    by_cases h : e.name = n
    · simp [addExpense, h]
    · have hne : ¬ n = e.name := fun hh => h hh.symm
      simp only [addExpense, if_neg h, List.map_cons, ih]
      by_cases h2 : n ∈ rest.map CatEntry.name
      · rw [if_pos h2, if_pos (by simp [h2])]
      · rw [if_neg h2, if_neg (by simp [hne, h2]), List.cons_append]

theorem addExpense_mem_name (l : List CatEntry) (n c : String) (a : ℚ) :
    n ∈ (addExpense l n c a).map CatEntry.name := by
  rw [addExpense_names]
  by_cases h : n ∈ l.map CatEntry.name
  · rwa [if_pos h]
  · rw [if_neg h]
    exact List.mem_append_right _ (List.mem_singleton_self n)

theorem addExpense_mem_name_mono (l : List CatEntry) (n c : String) (a : ℚ)
    (s : String) (hs : s ∈ l.map CatEntry.name) :
    s ∈ (addExpense l n c a).map CatEntry.name := by
  rw [addExpense_names]
  by_cases h : n ∈ l.map CatEntry.name
  · rwa [if_pos h]
  · rw [if_neg h]
    exact List.mem_append_left _ hs

theorem addExpense_color (l : List CatEntry) (n c : String) (a : ℚ) (n0 c0 : String)
    (hl : ∀ e ∈ l, e.name = n0 → e.color = c0) (hn : n = n0 → c = c0) :
    ∀ e ∈ addExpense l n c a, e.name = n0 → e.color = c0 := by
  induction l with
  | nil =>
    intro e he
    simp only [addExpense, List.mem_singleton] at he
    subst he
    exact hn
  | cons f rest ih =>
    intro e he
    by_cases h : f.name = n
    · simp only [addExpense, if_pos h] at he
      rcases List.mem_cons.mp he with rfl | hmem
      · exact hl f (List.mem_cons_self f rest)
      · exact hl e (List.mem_cons_of_mem f hmem)
    · simp only [addExpense, if_neg h] at he
      rcases List.mem_cons.mp he with rfl | hmem
      · exact hl e (List.mem_cons_self e rest)
      · exact ih (fun x hx => hl x (List.mem_cons_of_mem f hx)) e hmem

theorem groupStep_income (p : List CatEntry × ℚ) (t : Tx) (h : t.type = TxKind.income) :
    groupStep p t = p := by
  unfold groupStep
  rw [h]

theorem groupStep_expense (p : List CatEntry × ℚ) (t : Tx) (h : t.type = TxKind.expense) :
    groupStep p t = (addExpense p.1 (catName t) (catColor t) t.amount, p.2 + t.amount) := by
  unfold groupStep
  rw [h]

theorem groupFoldl_snd (ts : List Tx) : ∀ p : List CatEntry × ℚ,
    (List.foldl groupStep p ts).2 =
      p.2 + ((ts.filter fun t => t.type == TxKind.expense).map Tx.amount).sum := by
  induction ts with
  | nil =>
    intro p
    simp
  | cons t rest ih =>
    intro p
    rw [List.foldl_cons]
    cases htype : t.type with
    | income =>
      rw [groupStep_income p t htype, ih]
      have hb : (t.type == TxKind.expense) = false := by simp [htype]
      simp [List.filter_cons, hb]
    | expense =>
      rw [groupStep_expense p t htype, ih]
      have hb : (t.type == TxKind.expense) = true := by simp [htype]
      simp only [List.filter_cons, hb, if_true, List.map_cons, List.sum_cons]
      ring

theorem groupFoldl_fst_sum (ts : List Tx) : ∀ p : List CatEntry × ℚ,
    ((List.foldl groupStep p ts).1.map CatEntry.amount).sum =
      (p.1.map CatEntry.amount).sum +
        ((ts.filter fun t => t.type == TxKind.expense).map Tx.amount).sum := by
  induction ts with
  | nil =>
    intro p
    simp
  | cons t rest ih =>
    intro p
    rw [List.foldl_cons]
    cases htype : t.type with
    | income =>
      rw [groupStep_income p t htype, ih]
      have hb : (t.type == TxKind.expense) = false := by simp [htype]
      simp [List.filter_cons, hb]
    | expense =>
      rw [groupStep_expense p t htype, ih]
      have hb : (t.type == TxKind.expense) = true := by simp [htype]
      simp only [List.filter_cons, hb, if_true, List.map_cons, List.sum_cons, addExpense_sum]
      ring

theorem group_sum_eq (ts : List Tx) :
    ((groupExpenses ts).1.map CatEntry.amount).sum = (groupExpenses ts).2 := by
  unfold groupExpenses
  rw [groupFoldl_fst_sum, groupFoldl_snd]
  simp

theorem groupFoldl_names (ts : List Tx) : ∀ p : List CatEntry × ℚ,
    (List.foldl groupStep p ts).1.map CatEntry.name =
      List.foldl
        (fun ns t =>
          match t.type with
          | TxKind.expense => if catName t ∈ ns then ns else ns ++ [catName t]
          | TxKind.income => ns)
        (p.1.map CatEntry.name) ts := by
  induction ts with
  | nil =>
    intro p
    simp
  | cons t rest ih =>
    intro p
    rw [List.foldl_cons, List.foldl_cons]
    cases htype : t.type with
    | income =>
      rw [groupStep_income p t htype, ih]
    | expense =>
      rw [groupStep_expense p t htype, ih]
      simp only [htype]
      rw [addExpense_names]

theorem group_names_eq (ts : List Tx) :
    (groupExpenses ts).1.map CatEntry.name = firstEncounterNames ts := by
  unfold groupExpenses firstEncounterNames
  rw [groupFoldl_names]
  rfl

theorem groupFoldl_mem_name_mono (ts : List Tx) : ∀ (p : List CatEntry × ℚ) (s : String),
    s ∈ p.1.map CatEntry.name → s ∈ (List.foldl groupStep p ts).1.map CatEntry.name := by
  induction ts with
  | nil =>
    intro p s hs
    simpa using hs
  | cons t rest ih =>
    intro p s hs
    rw [List.foldl_cons]
    cases htype : t.type with
    | income =>
      rw [groupStep_income p t htype]
      exact ih p s hs
    | expense =>
      rw [groupStep_expense p t htype]
      exact ih _ s (addExpense_mem_name_mono p.1 (catName t) (catColor t) t.amount s hs)

theorem groupFoldl_mem_name (ts : List Tx) : ∀ (p : List CatEntry × ℚ) (t : Tx),
    t ∈ ts → t.type = TxKind.expense →
    catName t ∈ (List.foldl groupStep p ts).1.map CatEntry.name := by
  induction ts with
  | nil =>
    intro p t ht
    cases ht
  | cons u rest ih =>
    intro p t ht htype
    rcases List.mem_cons.mp ht with rfl | hmem
    · rw [List.foldl_cons, groupStep_expense p t htype]
      exact groupFoldl_mem_name_mono rest _ (catName t)
        (addExpense_mem_name p.1 (catName t) (catColor t) t.amount)
    · rw [List.foldl_cons]
      exact ih (groupStep p u) t hmem htype

theorem groupFoldl_color (ts : List Tx) : ∀ (p : List CatEntry × ℚ) (n0 c0 : String),
    (∀ e ∈ p.1, e.name = n0 → e.color = c0) →
    (∀ t ∈ ts, t.type = TxKind.expense → catName t = n0 → catColor t = c0) →
    ∀ e ∈ (List.foldl groupStep p ts).1, e.name = n0 → e.color = c0 := by
  induction ts with
  | nil =>
    intro p n0 c0 hp _ e he
    exact hp e he
  | cons t rest ih =>
    intro p n0 c0 hp hts e he
    rw [List.foldl_cons] at he
    cases htype : t.type with
    | income =>
      rw [groupStep_income p t htype] at he
      exact ih p n0 c0 hp (fun u hu => hts u (List.mem_cons_of_mem t hu)) e he
    | expense =>
      rw [groupStep_expense p t htype] at he
      refine ih _ n0 c0 ?_ (fun u hu => hts u (List.mem_cons_of_mem t hu)) e he
      exact addExpense_color p.1 (catName t) (catColor t) t.amount n0 c0 hp
        (hts t (List.mem_cons_self t rest) htype)

theorem group_no_expense (ts : List Tx)
    (h : (ts.filter fun t => t.type == TxKind.expense) = []) :
    groupExpenses ts = ([], 0) := by
  unfold groupExpenses
  have hall : ∀ t ∈ ts, t.type = TxKind.income := by
    intro t ht
    have := List.filter_eq_nil_iff.mp h t ht
    cases htype : t.type with
    | income => rfl
    | expense => simp [htype] at this
  clear h
  induction ts with
  | nil => rfl
  | cons t rest ih =>
    rw [List.foldl_cons, groupStep_income _ t (hall t (List.mem_cons_self t rest))]
    exact ih fun u hu => hall u (List.mem_cons_of_mem t hu)

theorem foldl_add_amount (l : List Tx) : ∀ s : ℚ,
    l.foldl (fun sum t => sum + t.amount) s = s + (l.map Tx.amount).sum := by
  induction l with
  | nil =>
    intro s
    simp
  | cons t rest ih =>
    intro s
    rw [List.foldl_cons, ih]
    simp
    ring

theorem sum_map_div_mul (T : ℚ) (l : List CatEntry) :
    (l.map fun e => e.amount / T * 100).sum = (l.map CatEntry.amount).sum / T * 100 := by
  induction l with
  | nil => simp
  | cons e rest ih =>
    simp only [List.map_cons, List.sum_cons, ih]
    field_simp
    ring

theorem filter_orderedInsert_eq (v : ℚ) (a : CategoryExpense) (ha : a.amount = v)
    (l : List CategoryExpense) :
    (List.orderedInsert byAmountDesc a l).filter (fun e => decide (e.amount = v)) =
      a :: l.filter (fun e => decide (e.amount = v)) := by
  induction l with
  | nil => simp [ha]
  | cons b bs ih =>
    by_cases h : byAmountDesc a b
    · rw [List.orderedInsert, if_pos h, List.filter_cons, if_pos (by simp [ha])]
    · have hbv : ¬ b.amount = v := by
        unfold byAmountDesc at h
        intro hb
        exact h (le_of_eq (hb.trans ha.symm))
      rw [List.orderedInsert, if_neg h, List.filter_cons, if_neg (by simp [hbv]), ih,
        List.filter_cons, if_neg (by simp [hbv])]

theorem filter_orderedInsert_ne (v : ℚ) (a : CategoryExpense) (ha : ¬ a.amount = v)
    (l : List CategoryExpense) :
    (List.orderedInsert byAmountDesc a l).filter (fun e => decide (e.amount = v)) =
      l.filter (fun e => decide (e.amount = v)) := by
  induction l with
  | nil => simp [ha]
  | cons b bs ih =>
    by_cases h : byAmountDesc a b
    · rw [List.orderedInsert, if_pos h, List.filter_cons, if_neg (by simp [ha])]
    · rw [List.orderedInsert, if_neg h, List.filter_cons, List.filter_cons]
      by_cases hb : b.amount = v
      · rw [if_pos (by simp [hb]), if_pos (by simp [hb]), ih]
      · rw [if_neg (by simp [hb]), if_neg (by simp [hb]), ih]

theorem filter_insertionSort (v : ℚ) (l : List CategoryExpense) :
    (List.insertionSort byAmountDesc l).filter (fun e => decide (e.amount = v)) =
      l.filter (fun e => decide (e.amount = v)) := by
  induction l with
  | nil => rfl
  | cons a l ih =>
    rw [List.insertionSort]
    by_cases ha : a.amount = v
    · rw [filter_orderedInsert_eq v a ha, ih, List.filter_cons, if_pos (by simp [ha])]
    · rw [filter_orderedInsert_ne v a ha, ih, List.filter_cons, if_neg (by simp [ha])]

theorem loopBody_transactions (s : AnalyticsLoopState) (t : Tx) :
    (loopBody s t).transactions = s.transactions := by
  unfold loopBody
  cases t.type <;> rfl

theorem foldl_loopBody_transactions (ts : List Tx) : ∀ s : AnalyticsLoopState,
    (List.foldl loopBody s ts).transactions = s.transactions := by
  induction ts with
  | nil =>
    intro s
    rfl
  | cons t rest ih =>
    intro s
    rw [List.foldl_cons, ih, loopBody_transactions]

theorem foldl_loopBody_group (ts : List Tx) : ∀ s : AnalyticsLoopState,
    ((List.foldl loopBody s ts).expensesByCategory, (List.foldl loopBody s ts).totalExpense) =
      List.foldl groupStep (s.expensesByCategory, s.totalExpense) ts := by
  induction ts with
  | nil =>
    intro s
    rfl
  | cons t rest ih =>
    intro s
    rw [List.foldl_cons, List.foldl_cons, ih]
    congr 1
    cases htype : t.type with
    | income =>
      rw [groupStep_income _ t htype]
      unfold loopBody
      rw [htype]
    | expense =>
      rw [groupStep_expense _ t htype]
      unfold loopBody
      rw [htype]

theorem monthStep_income (p : ℚ × ℚ) (t : Tx) (h : t.type = TxKind.income) :
    monthStep p t = (p.1 + t.amount, p.2) := by
  unfold monthStep
  rw [h]

theorem monthStep_expense (p : ℚ × ℚ) (t : Tx) (h : t.type = TxKind.expense) :
    monthStep p t = (p.1, p.2 + t.amount) := by
  unfold monthStep
  rw [h]

theorem monthStep_foldl (ts : List Tx) : ∀ p : ℚ × ℚ,
    List.foldl monthStep p ts = (p.1 + specIncomeSum ts, p.2 + specExpenseSum ts) := by
  induction ts with
  | nil =>
    intro p
    simp [specIncomeSum, specExpenseSum]
  | cons t rest ih =>
    intro p
    rw [List.foldl_cons]
    cases htype : t.type with
    | income =>
      rw [monthStep_income p t htype, ih]
      have hi : (t.type == TxKind.income) = true := by simp [htype]
      have he : (t.type == TxKind.expense) = false := by simp [htype]
      simp only [specIncomeSum, specExpenseSum, List.filter_cons, hi, he, if_true, if_false,
        List.map_cons, List.sum_cons, Prod.mk.injEq]
      exact ⟨by ring, rfl⟩
    | expense =>
      rw [monthStep_expense p t htype, ih]
      have hi : (t.type == TxKind.income) = false := by simp [htype]
      have he : (t.type == TxKind.expense) = true := by simp [htype]
      simp only [specIncomeSum, specExpenseSum, List.filter_cons, hi, he, if_true, if_false,
        List.map_cons, List.sum_cons, Prod.mk.injEq]
      exact ⟨rfl, by ring⟩

theorem loadDataStats_income (ts : List Tx) :
    (loadDataStats ts).totalIncome = specIncomeSum ts := by
  simp only [loadDataStats, specIncomeSum]
  rw [foldl_add_amount]
  simp

theorem loadDataStats_expenses (ts : List Tx) :
    (loadDataStats ts).totalExpenses = specExpenseSum ts := by
  simp only [loadDataStats, specExpenseSum]
  rw [foldl_add_amount]
  simp

theorem filterMap_percentage (T : ℚ) (hT : T ≠ 0) (l : List CatEntry) :
    (l.map (toCategoryExpense T)).filterMap CategoryExpense.percentage =
      l.map fun x => x.amount / T * 100 := by
  induction l with
  | nil => rfl
  | cons x xs ih =>
    simp only [List.map_cons, List.filterMap_cons]
    have hx : CategoryExpense.percentage (toCategoryExpense T x) =
        some (x.amount / T * 100) := by
      simp [toCategoryExpense, hT]
    rw [hx, ih]

theorem objectEntries_perm (l : List CatEntry) : List.Perm (objectEntries l) l := by
  unfold objectEntries
  exact ((List.perm_insertionSort byIndexAsc _).append_right _).trans
    (List.filter_append_perm _ l)

theorem mem_objectEntries (l : List CatEntry) (e : CatEntry) :
    e ∈ objectEntries l ↔ e ∈ l :=
  (objectEntries_perm l).mem_iff

theorem objectEntries_of_no_index (l : List CatEntry)
    (h : ∀ e ∈ l, isArrayIndexName e.name = false) :
    objectEntries l = l := by
  unfold objectEntries
  have h1 : (l.filter fun e => isArrayIndexName e.name) = [] :=
    List.filter_eq_nil_iff.mpr (fun a ha => by simp [h a ha])
  have h2 : (l.filter fun e => !isArrayIndexName e.name) = l :=
    List.filter_eq_self.mpr (fun a ha => by simp [h a ha])
  rw [h1, h2]
  rfl

theorem addExpense_color_merge (l : List CatEntry) (n c : String) (a : ℚ) (c0 : String)
    (hmem : n ∈ l.map CatEntry.name)
    (hl : ∀ e ∈ l, e.name = n → e.color = c0) :
    ∀ e ∈ addExpense l n c a, e.name = n → e.color = c0 := by
  induction l with
  | nil => simp at hmem
  | cons f rest ih =>
    intro e he
    by_cases h : f.name = n
    · simp only [addExpense, if_pos h] at he
      rcases List.mem_cons.mp he with rfl | hm
      · exact fun _ => hl f (List.mem_cons_self f rest) h
      · exact hl e (List.mem_cons_of_mem f hm)
    · simp only [addExpense, if_neg h] at he
      rcases List.mem_cons.mp he with rfl | hm
      · exact hl e (List.mem_cons_self e rest)
      · have hmem2 : n ∈ rest.map CatEntry.name := by
          rw [List.map_cons] at hmem
          rcases List.mem_cons.mp hmem with h1 | h2
          · exact absurd h1.symm h
          · exact h2
        exact ih hmem2 (fun x hx => hl x (List.mem_cons_of_mem f hx)) e hm

theorem groupFoldl_color_keep (ts : List Tx) : ∀ (p : List CatEntry × ℚ) (n0 c0 : String),
    n0 ∈ p.1.map CatEntry.name →
    (∀ e ∈ p.1, e.name = n0 → e.color = c0) →
    ∀ e ∈ (List.foldl groupStep p ts).1, e.name = n0 → e.color = c0 := by
  induction ts with
  | nil =>
    intro p n0 c0 _ hp e he
    exact hp e he
  | cons t rest ih =>
    intro p n0 c0 hmem hp
    rw [List.foldl_cons]
    cases htype : t.type with
    | income =>
      rw [groupStep_income p t htype]
      exact ih p n0 c0 hmem hp
    | expense =>
      rw [groupStep_expense p t htype]
      refine ih _ n0 c0
        (addExpense_mem_name_mono p.1 (catName t) (catColor t) t.amount n0 hmem) ?_
      by_cases hnn : catName t = n0
      · subst hnn
        exact addExpense_color_merge p.1 (catName t) (catColor t) t.amount c0 hmem hp
      · exact addExpense_color p.1 (catName t) (catColor t) t.amount n0 c0 hp
          (fun h => absurd h hnn)

theorem group_color_first (l1 : List Tx) (t : Tx) (l2 : List Tx) (n0 c0 : String)
    (hl1 : ∀ u ∈ l1, u.type = TxKind.expense → catName u = n0 → catColor u = c0)
    (htype : t.type = TxKind.expense) (hname : catName t = n0) (hcolor : catColor t = c0) :
    ∀ e ∈ (groupExpenses (l1 ++ t :: l2)).1, e.name = n0 → e.color = c0 := by
  unfold groupExpenses
  rw [List.foldl_append, List.foldl_cons]
  have hinv1 : ∀ e ∈ (List.foldl groupStep ([], (0 : ℚ)) l1).1, e.name = n0 → e.color = c0 :=
    groupFoldl_color l1 ([], 0) n0 c0 (fun e he => absurd he (List.not_mem_nil e)) hl1
  rw [groupStep_expense _ t htype]
  refine groupFoldl_color_keep l2 _ n0 c0 ?_ ?_
  · rw [hname]
    exact addExpense_mem_name _ n0 (catColor t) t.amount
  · exact addExpense_color _ (catName t) (catColor t) t.amount n0 c0 hinv1
      (fun _ => hcolor)

/-! ## Claims -/

/-- Claim C3: for dueDay in 1..31 and a valid calendar day of today's month,
`getDaysUntilDue` equals `dueDay - today.day` when `dueDay ≥ today.day` and
`(daysInCurrentMonth - today.day) + dueDay` otherwise; the result is always
in [0, 31) and is 0 exactly when `dueDay = today.day`. -/
theorem C3_daysUntilDue (dueDate todayDay year month : Nat)
    (h1 : 1 ≤ dueDate) (h2 : dueDate ≤ 31)
    (h3 : 1 ≤ todayDay) (h4 : todayDay ≤ daysInMonth year month) :
    (todayDay ≤ dueDate →
      getDaysUntilDue dueDate todayDay year month = (dueDate : ℤ) - (todayDay : ℤ)) ∧
    (dueDate < todayDay →
      getDaysUntilDue dueDate todayDay year month =
        ((daysInMonth year month : ℤ) - (todayDay : ℤ)) + (dueDate : ℤ)) ∧
    0 ≤ getDaysUntilDue dueDate todayDay year month ∧
    getDaysUntilDue dueDate todayDay year month < 31 ∧
    (getDaysUntilDue dueDate todayDay year month = 0 ↔ dueDate = todayDay) := by
  have h5 := daysInMonth_le year month
  simp only [getDaysUntilDue]
  split
  · refine ⟨fun h => by omega, fun _ => rfl, ?_, ?_, ?_⟩ <;> omega
  · refine ⟨fun _ => rfl, fun h => by omega, ?_, ?_, ?_⟩ <;> omega

/-- Witness for C3 at the spec's own scenario: today is February 28 of the
non-leap year 2023 and the due day is 2, so the wrapped distance is 2 days. -/
theorem C3_witness :
    0 ≤ getDaysUntilDue 2 28 2023 2 ∧ getDaysUntilDue 2 28 2023 2 < 31 :=
  ⟨(C3_daysUntilDue 2 28 2023 2 (by decide) (by decide) (by decide) (by decide)).2.2.1,
   (C3_daysUntilDue 2 28 2023 2 (by decide) (by decide) (by decide) (by decide)).2.2.2.1⟩

/-- Claim C4: for every daysUntil ≥ 0 and active flag, the urgency is decided
with first match winning: not active gives Inactive, 0 gives DueToday, at
most 3 gives Imminent, at most 7 gives Upcoming, else Scheduled. -/
theorem C4_classify (daysUntil : ℤ) (is_active : Bool) (h0 : 0 ≤ daysUntil) :
    (is_active = false → classify daysUntil is_active = Urgency.inactiveU) ∧
    (is_active = true → daysUntil = 0 → classify daysUntil is_active = Urgency.dueToday) ∧
    (is_active = true → 0 < daysUntil → daysUntil ≤ 3 →
      classify daysUntil is_active = Urgency.imminent) ∧
    (is_active = true → 3 < daysUntil → daysUntil ≤ 7 →
      classify daysUntil is_active = Urgency.upcoming) ∧
    (is_active = true → 7 < daysUntil →
      classify daysUntil is_active = Urgency.scheduled) := by
  refine ⟨fun ha => ?_, fun ha hd => ?_, fun ha hd1 hd2 => ?_, fun ha hd1 hd2 => ?_,
    fun ha hd => ?_⟩ <;>
    subst ha <;> simp only [classify, Bool.not_true, Bool.not_false, if_true, if_false,
      Bool.false_eq_true, ite_false, ite_true]
  · subst hd
    simp
  · rw [if_neg (by omega), if_pos hd2]
  · rw [if_neg (by omega), if_neg (by omega), if_pos hd2]
  · rw [if_neg (by omega), if_neg (by omega), if_neg (by omega)]

/-- Witness for C4 at the spec's scenario: 2 days until due on an active bill
classifies as Imminent. -/
theorem C4_witness : classify 2 true = Urgency.imminent :=
  (C4_classify 2 true (by decide)).2.2.1 rfl (by decide) (by decide)

/-- Claim C1, counterexample: one active bill due on day 15 with today the
10th of May 2025. Its month-wrapped daysUntilDue is 5, so the claimed badge
count (active bills with daysUntilDue at most 7) is 1, but the badge computed
by `loadNotifications` is 0, because its filter uses the raw difference with
a 3-day window. -/
theorem C1_counterexample :
    headerBadgeCount [⟨"Internet", 50, 15, true⟩] 10 = 0 ∧
    upcomingCount [⟨"Internet", 50, 15, true⟩] 10 2025 5 = 1 ∧
    getDaysUntilDue 15 10 2025 5 = 5 := by
  decide

/-- Claim C1, amended: the Header notification badge counts the active bills
whose raw day difference `due_date - today.day` lies in [0, 3], with no
month-wrap; the count of active bills with month-wrapped daysUntilDue at most
7 is instead the length of `upcomingReminders`, which drives the Reminders
page banner. -/
theorem C1_badge (bills : List BillReminder) (todayDay year month : Nat) :
    headerBadgeCount bills todayDay =
      bills.countP (fun b => b.is_active &&
        (decide (todayDay ≤ b.due_date) && decide (b.due_date ≤ todayDay + 3))) ∧
    (upcomingReminders bills todayDay year month).length =
      upcomingCount bills todayDay year month := by
  constructor
  · unfold headerBadgeCount
    rw [List.filter_filter, List.countP_eq_length_filter]
    congr 1
    refine List.filter_congr fun b _ => ?_
    have e1 : decide (0 ≤ (b.due_date : ℤ) - (todayDay : ℤ)) =
        decide (todayDay ≤ b.due_date) := by
      rw [decide_eq_decide]
      omega
    have e2 : decide ((b.due_date : ℤ) - (todayDay : ℤ) ≤ 3) =
        decide (b.due_date ≤ todayDay + 3) := by
      rw [decide_eq_decide]
      omega
    rw [e1, e2, Bool.and_comm]
  · unfold upcomingReminders upcomingCount
    rw [List.countP_eq_length_filter]

/-- Witness for C1 (amended) at a concrete bill list: one bill due on the
2nd, today the 28th, both counts evaluated. -/
theorem C1_badge_witness :
    headerBadgeCount [⟨"Rent", 900, 2, true⟩] 28 =
      List.countP (fun b : BillReminder => b.is_active &&
        (decide (28 ≤ b.due_date) && decide (b.due_date ≤ 28 + 3)))
        [⟨"Rent", 900, 2, true⟩] :=
  (C1_badge [⟨"Rent", 900, 2, true⟩] 28 2023 2).1

/-- Claim C5: with a positive budget amount and percentage = spent / amount ×
100, the status is Exceeded at percentage ≥ 100, Warning at 80 ≤ percentage <
100, OnTrack below 80; the ratios 0.80, 1.00 and 0.799999 fall on Warning,
Exceeded and OnTrack respectively, and `getProgressColor` renders exactly the
color of that status. -/
theorem C5_budgetStatus (amount spent : ℚ) (_hpos : 0 < amount) :
    getProgressColor (budgetPercentage amount spent) =
      statusColor (budgetStatus (budgetPercentage amount spent)) ∧
    (100 ≤ budgetPercentage amount spent →
      budgetStatus (budgetPercentage amount spent) = BudgetStatus.exceeded) ∧
    (80 ≤ budgetPercentage amount spent → budgetPercentage amount spent < 100 →
      budgetStatus (budgetPercentage amount spent) = BudgetStatus.warning) ∧
    (budgetPercentage amount spent < 80 →
      budgetStatus (budgetPercentage amount spent) = BudgetStatus.onTrack) ∧
    (spent / amount = 4 / 5 →
      budgetStatus (budgetPercentage amount spent) = BudgetStatus.warning) ∧
    (spent / amount = 1 →
      budgetStatus (budgetPercentage amount spent) = BudgetStatus.exceeded) ∧
    (spent / amount = 799999 / 1000000 →
      budgetStatus (budgetPercentage amount spent) = BudgetStatus.onTrack) := by
  refine ⟨?_, fun h => ?_, fun h1 h2 => ?_, fun h => ?_, fun h => ?_, fun h => ?_, fun h => ?_⟩
  · unfold getProgressColor budgetStatus statusColor
    split <;> [rfl; skip]
    split <;> rfl
  · unfold budgetStatus
    rw [if_pos h]
  · unfold budgetStatus
    rw [if_neg (by linarith), if_pos h1]
  · unfold budgetStatus
    rw [if_neg (by linarith), if_neg (by linarith)]
  · unfold budgetStatus budgetPercentage
    rw [h]
    norm_num
  · unfold budgetStatus budgetPercentage
    rw [h]
    norm_num
  · unfold budgetStatus budgetPercentage
    rw [h]
    norm_num

/-- Witness for C5 at the spec's scenario: a 500 budget with 450 spent sits
at 90 percent, status Warning (amber). -/
theorem C5_witness :
    budgetStatus (budgetPercentage 500 450) = BudgetStatus.warning :=
  (C5_budgetStatus 500 450 (by norm_num)).2.2.1 (by norm_num [budgetPercentage])
    (by norm_num [budgetPercentage])

/-- Claim C7: for records with non-negative amounts, totalIncome is the sum
of the income amounts, totalExpenses the sum of the expense amounts, and
netSavings their difference; the per-month loop of the Analytics page (whose
else branch catches every non-income row) agrees with these totals. -/
theorem C7_totals (ts : List Tx) (_h : ∀ t ∈ ts, 0 ≤ t.amount) :
    (loadDataStats ts).totalIncome = specIncomeSum ts ∧
    (loadDataStats ts).totalExpenses = specExpenseSum ts ∧
    (loadDataStats ts).totalSavings =
      (loadDataStats ts).totalIncome - (loadDataStats ts).totalExpenses ∧
    monthAggregate ts = ((loadDataStats ts).totalIncome, (loadDataStats ts).totalExpenses) := by
  refine ⟨loadDataStats_income ts, loadDataStats_expenses ts, rfl, ?_⟩
  unfold monthAggregate
  rw [monthStep_foldl, loadDataStats_income, loadDataStats_expenses]
  simp

/-- Witness for C7 at the spec's scenario: income 1000, expenses 300 and 200,
so savings are 500. -/
theorem C7_witness :
    (loadDataStats
      [⟨TxKind.income, 1000, none⟩,
       ⟨TxKind.expense, 300, some ⟨"Food", "#ef4444"⟩⟩,
       ⟨TxKind.expense, 200, some ⟨"Transport", "#3b82f6"⟩⟩]).totalSavings =
      (loadDataStats
        [⟨TxKind.income, 1000, none⟩,
         ⟨TxKind.expense, 300, some ⟨"Food", "#ef4444"⟩⟩,
         ⟨TxKind.expense, 200, some ⟨"Transport", "#3b82f6"⟩⟩]).totalIncome -
      (loadDataStats
        [⟨TxKind.income, 1000, none⟩,
         ⟨TxKind.expense, 300, some ⟨"Food", "#ef4444"⟩⟩,
         ⟨TxKind.expense, 200, some ⟨"Transport", "#3b82f6"⟩⟩]).totalExpenses :=
  (C7_totals
    [⟨TxKind.income, 1000, none⟩,
     ⟨TxKind.expense, 300, some ⟨"Food", "#ef4444"⟩⟩,
     ⟨TxKind.expense, 200, some ⟨"Transport", "#3b82f6"⟩⟩] (by decide)).2.2.1

/-- Claim C9: the aggregation loop of the Analytics page never writes to its
input: running the `forEach` body with the fetched record list threaded
through the loop state leaves the list unchanged, and the accumulators it
produces are exactly the pure function of the input records. -/
theorem C9_no_input_mutation (ts : List Tx) :
    (runLoop ts).transactions = ts ∧
    (runLoop ts).expensesByCategory = (groupExpenses ts).1 ∧
    (runLoop ts).totalExpense = (groupExpenses ts).2 := by
  have hg := foldl_loopBody_group ts
    { transactions := ts, expensesByCategory := [], totalExpense := 0 }
  refine ⟨?_, ?_, ?_⟩
  · unfold runLoop
    rw [foldl_loopBody_transactions]
  · exact congrArg Prod.fst hg
  · exact congrArg Prod.snd hg

/-- Claim C2, counterexample: a single expense record of amount 0 makes
totalExpenses zero while the breakdown is non-empty; its percentage is the
non-finite result of 0 / 0 (embedded as `none`), not 0. -/
theorem C2_counterexample :
    (groupExpenses [⟨TxKind.expense, 0, none⟩]).2 = 0 ∧
    (categoryData [⟨TxKind.expense, 0, none⟩]).map CategoryExpense.percentage = [none] := by
  norm_num +decide [categoryData, groupExpenses, groupStep, addExpense, catName,
    catColor, toCategoryExpense, objectEntries, isArrayIndexName, digitsToNat, byIndexAsc,
    byAmountDesc, List.insertionSort, List.orderedInsert]

/-- Claim C2, amended: whenever totalExpenses is non-zero, every byCategory
entry carries percentage = summedAmount / totalExpenses × 100; when the
record set contains no expense records the breakdown is empty, so an empty
record set never surfaces NaN; but expense records summing to 0 leave the
percentages non-finite (NaN), not 0. -/
theorem C2_percentages (ts : List Tx) :
    (∀ e ∈ categoryData ts, (groupExpenses ts).2 ≠ 0 →
      e.percentage = some (e.amount / (groupExpenses ts).2 * 100)) ∧
    ((ts.filter fun t => t.type == TxKind.expense) = [] → categoryData ts = []) := by
  constructor
  · intro e he hT
    have he2 : e ∈ (objectEntries (groupExpenses ts).1).map
        (toCategoryExpense (groupExpenses ts).2) :=
      (List.perm_insertionSort byAmountDesc _).mem_iff.mp he
    rcases List.mem_map.mp he2 with ⟨x, _, rfl⟩
    simp [toCategoryExpense, hT]
  · intro h
    unfold categoryData
    rw [group_no_expense ts h]
    rfl

/-- Witness for C2 (amended) at one expense of 300: its percentage evaluates
to 100 percent of the total. -/
theorem C2_witness :
    ({ name := "Food", amount := 300, color := "#ef4444", percentage := some 100 } :
        CategoryExpense).percentage =
      some (({ name := "Food", amount := 300, color := "#ef4444", percentage := some 100 } :
          CategoryExpense).amount /
        (groupExpenses [⟨TxKind.expense, 300, some ⟨"Food", "#ef4444"⟩⟩]).2 * 100) :=
  (C2_percentages [⟨TxKind.expense, 300, some ⟨"Food", "#ef4444"⟩⟩]).1
    { name := "Food", amount := 300, color := "#ef4444", percentage := some 100 }
    (by
      norm_num +decide [categoryData, groupExpenses, groupStep, addExpense, catName,
        catColor, toCategoryExpense, objectEntries, isArrayIndexName, digitsToNat,
        byIndexAsc, byAmountDesc, List.insertionSort, List.orderedInsert])
    (by norm_num [groupExpenses, groupStep, addExpense, catName, catColor])

/-- Claim C6, counterexample: a single zero-amount expense with a category
gives totalExpenses 0 but a one-entry breakdown whose percentage is the
non-finite 0 / 0 (embedded as `none`); the percentages do not sum to 0. -/
theorem C6_counterexample :
    (groupExpenses [⟨TxKind.expense, 0, some ⟨"Food", "#ef4444"⟩⟩]).2 = 0 ∧
    (categoryData [⟨TxKind.expense, 0, some ⟨"Food", "#ef4444"⟩⟩]).map
      CategoryExpense.percentage = [none] ∧
    (categoryData [⟨TxKind.expense, 0, some ⟨"Food", "#ef4444"⟩⟩]).map
      CategoryExpense.percentage ≠ [some 0] := by
  norm_num +decide [categoryData, groupExpenses, groupStep, addExpense, catName,
    catColor, toCategoryExpense, objectEntries, isArrayIndexName, digitsToNat, byIndexAsc,
    byAmountDesc, List.insertionSort, List.orderedInsert]

/-- Claim C6, amended: the defined percentages sum to exactly 100 whenever
totalExpenses is positive (exact rational arithmetic, hence within any
rounding epsilon), and every entry is then defined; when the record set has
no expense records the breakdown is empty and the sum is 0; when expense
records are present but sum to 0 the percentages are non-finite, not 0. -/
theorem C6_percentage_sum (ts : List Tx) :
    (0 < (groupExpenses ts).2 →
      ((categoryData ts).filterMap CategoryExpense.percentage).sum = 100 ∧
      ∀ e ∈ categoryData ts, (e.percentage).isSome = true) ∧
    ((ts.filter fun t => t.type == TxKind.expense) = [] →
      categoryData ts = [] ∧
      ((categoryData ts).filterMap CategoryExpense.percentage).sum = 0) := by
  constructor
  · intro hT
    have hTne : (groupExpenses ts).2 ≠ 0 := ne_of_gt hT
    constructor
    · have hperm :
          List.Perm (categoryData ts)
            ((groupExpenses ts).1.map (toCategoryExpense (groupExpenses ts).2)) :=
        (List.perm_insertionSort byAmountDesc _).trans
          ((objectEntries_perm (groupExpenses ts).1).map
            (toCategoryExpense (groupExpenses ts).2))
      rw [(hperm.filterMap CategoryExpense.percentage).sum_eq,
        filterMap_percentage _ hTne, sum_map_div_mul, group_sum_eq, div_self hTne]
      norm_num
    · intro e he
      have he2 : e ∈ (objectEntries (groupExpenses ts).1).map
          (toCategoryExpense (groupExpenses ts).2) :=
        (List.perm_insertionSort byAmountDesc _).mem_iff.mp he
      rcases List.mem_map.mp he2 with ⟨x, _, rfl⟩
      simp [toCategoryExpense, hTne]
  · intro h
    have hempty : categoryData ts = [] := by
      unfold categoryData
      rw [group_no_expense ts h]
      rfl
    rw [hempty]
    exact ⟨rfl, rfl⟩

/-- Witness for C6 at the spec's scenario (income 1000, Food 300, Transport
200): the two percentages, 60 and 40, sum to 100. -/
theorem C6_witness :
    ((categoryData
      [⟨TxKind.income, 1000, none⟩,
       ⟨TxKind.expense, 300, some ⟨"Food", "#ef4444"⟩⟩,
       ⟨TxKind.expense, 200, some ⟨"Transport", "#3b82f6"⟩⟩]).filterMap
      CategoryExpense.percentage).sum = 100 :=
  ((C6_percentage_sum
    [⟨TxKind.income, 1000, none⟩,
     ⟨TxKind.expense, 300, some ⟨"Food", "#ef4444"⟩⟩,
     ⟨TxKind.expense, 200, some ⟨"Transport", "#3b82f6"⟩⟩]).1
    (by norm_num [groupExpenses, groupStep, addExpense, catName, catColor])).1

/-- Claim C8, counterexample: categories named "9" then "2" with equal
summed amounts (a tie). First-encounter order is ["9", "2"], but both names
are array-index-like property keys, which `Object.entries` lists in
ascending numeric order, so the breakdown (whose stable sort keeps equal
amounts in enumeration order) lists "2" before "9". -/
theorem C8_counterexample :
    (categoryData [⟨TxKind.expense, 7, some ⟨"9", "#aaaaaa"⟩⟩,
      ⟨TxKind.expense, 7, some ⟨"2", "#bbbbbb"⟩⟩]).map CategoryExpense.name = ["2", "9"] ∧
    firstEncounterNames [⟨TxKind.expense, 7, some ⟨"9", "#aaaaaa"⟩⟩,
      ⟨TxKind.expense, 7, some ⟨"2", "#bbbbbb"⟩⟩] = ["9", "2"] ∧
    (groupExpenses [⟨TxKind.expense, 7, some ⟨"9", "#aaaaaa"⟩⟩,
      ⟨TxKind.expense, 7, some ⟨"2", "#bbbbbb"⟩⟩]).1.map CatEntry.amount = [7, 7] := by
  norm_num +decide [categoryData, groupExpenses, groupStep, addExpense, catName, catColor,
    toCategoryExpense, objectEntries, isArrayIndexName, digitsToNat, byIndexAsc,
    byAmountDesc, firstEncounterNames, List.insertionSort, List.orderedInsert]

/-- Claim C8, amended: the breakdown is sorted descending by summed amount,
and entries with equal amounts keep their relative order from the
`Object.entries` enumeration (the sort is stable); the accumulated keys are
in first-encounter order, but the enumeration lists array-index-like names
first in ascending numeric order, so ties follow first-encounter order
exactly when no category name is array-index-like. -/
theorem C8_sorted_stable (ts : List Tx) :
    List.Sorted byAmountDesc (categoryData ts) ∧
    (∀ v : ℚ, (categoryData ts).filter (fun e => decide (e.amount = v)) =
      ((objectEntries (groupExpenses ts).1).map
        (toCategoryExpense (groupExpenses ts).2)).filter
        (fun e => decide (e.amount = v))) ∧
    (groupExpenses ts).1.map CatEntry.name = firstEncounterNames ts ∧
    ((∀ e ∈ (groupExpenses ts).1, isArrayIndexName e.name = false) →
      (objectEntries (groupExpenses ts).1).map CatEntry.name = firstEncounterNames ts) := by
  refine ⟨List.sorted_insertionSort byAmountDesc _, fun v => filter_insertionSort v _,
    group_names_eq ts, fun h => ?_⟩
  rw [objectEntries_of_no_index _ h, group_names_eq]

/-- Witness for C8 at the spec's scenario: neither Food nor Transport is an
array-index-like name, so the enumeration is in first-encounter order. -/
theorem C8_witness :
    (objectEntries (groupExpenses
      [⟨TxKind.income, 1000, none⟩,
       ⟨TxKind.expense, 300, some ⟨"Food", "#ef4444"⟩⟩,
       ⟨TxKind.expense, 200, some ⟨"Transport", "#3b82f6"⟩⟩]).1).map CatEntry.name =
      firstEncounterNames
        [⟨TxKind.income, 1000, none⟩,
         ⟨TxKind.expense, 300, some ⟨"Food", "#ef4444"⟩⟩,
         ⟨TxKind.expense, 200, some ⟨"Transport", "#3b82f6"⟩⟩] :=
  (C8_sorted_stable
    [⟨TxKind.income, 1000, none⟩,
     ⟨TxKind.expense, 300, some ⟨"Food", "#ef4444"⟩⟩,
     ⟨TxKind.expense, 200, some ⟨"Transport", "#3b82f6"⟩⟩]).2.2.2 (by
      norm_num +decide [groupExpenses, groupStep, addExpense, catName, catColor,
        isArrayIndexName, digitsToNat])

/-- Claim C10, counterexample: when an expense with an explicit category
named Other (color #ff0000) is encountered before a categoryless expense,
the categoryless record is merged into that entry and displayed with color
#ff0000, not #6366f1: the breakdown has a single entry and no entry colored
#6366f1. -/
theorem C10_counterexample :
    (categoryData
      [⟨TxKind.expense, 10, some ⟨"Other", "#ff0000"⟩⟩, ⟨TxKind.expense, 5, none⟩]).map
      CategoryExpense.name = ["Other"] ∧
    (categoryData
      [⟨TxKind.expense, 10, some ⟨"Other", "#ff0000"⟩⟩, ⟨TxKind.expense, 5, none⟩]).map
      CategoryExpense.color = ["#ff0000"] := by
  norm_num +decide [categoryData, groupExpenses, groupStep, addExpense, catName,
    catColor, toCategoryExpense, objectEntries, isArrayIndexName, digitsToNat, byIndexAsc,
    byAmountDesc, List.insertionSort, List.orderedInsert]

/-- Claim C10, amended: an expense record with no resolvable category
(written as the record `t` between the earlier records `l1` and the later
records `l2`) maps to the name Other and fallback color #6366f1; its amount
still counts toward totalExpenses, which sums every expense amount; and the
breakdown contains an entry named Other with color #6366f1, provided no
earlier-encountered expense maps to the name Other with a different color
(the entry color is fixed at the first encounter of the name, so later
conflicting colors never override it). -/
theorem C10_uncategorized (l1 l2 : List Tx) (t : Tx)
    (htype : t.type = TxKind.expense) (hcat : t.categories = none)
    (hfirst : ∀ u ∈ l1, u.type = TxKind.expense → catName u = "Other" →
      catColor u = "#6366f1") :
    catName t = "Other" ∧
    catColor t = "#6366f1" ∧
    (groupExpenses (l1 ++ t :: l2)).2 = specExpenseSum (l1 ++ t :: l2) ∧
    (∃ e ∈ categoryData (l1 ++ t :: l2), e.name = "Other" ∧ e.color = "#6366f1") := by
  have hname : catName t = "Other" := by
    unfold catName
    rw [hcat]
  have hcolor : catColor t = "#6366f1" := by
    unfold catColor
    rw [hcat]
  refine ⟨hname, hcolor, ?_, ?_⟩
  · unfold groupExpenses specExpenseSum
    rw [groupFoldl_snd]
    simp
  · have ht : t ∈ l1 ++ t :: l2 := List.mem_append_right l1 (List.mem_cons_self t l2)
    have hmem : "Other" ∈ (groupExpenses (l1 ++ t :: l2)).1.map CatEntry.name := by
      have h := groupFoldl_mem_name (l1 ++ t :: l2) ([], 0) t ht htype
      rwa [hname] at h
    rcases List.mem_map.mp hmem with ⟨x, hx, hxname⟩
    have hxcolor : x.color = "#6366f1" :=
      group_color_first l1 t l2 "Other" "#6366f1" hfirst htype hname hcolor x hx hxname
    refine ⟨toCategoryExpense (groupExpenses (l1 ++ t :: l2)).2 x, ?_, hxname, hxcolor⟩
    exact (List.perm_insertionSort byAmountDesc _).mem_iff.mpr
      (List.mem_map_of_mem (toCategoryExpense (groupExpenses (l1 ++ t :: l2)).2)
        ((mem_objectEntries _ x).mpr hx))

/-- Witness for C10 (amended) at the adversarial scenario: a categoryless
expense followed by an expense whose category is literally named Other with
color #ff0000; the key is created by the categoryless record first, so the
entry keeps color #6366f1. -/
theorem C10_witness :
    ∃ e ∈ categoryData ([] ++ ⟨TxKind.expense, 5, none⟩ ::
        [⟨TxKind.expense, 10, some ⟨"Other", "#ff0000"⟩⟩]),
      e.name = "Other" ∧ e.color = "#6366f1" :=
  (C10_uncategorized [] [⟨TxKind.expense, 10, some ⟨"Other", "#ff0000"⟩⟩]
    ⟨TxKind.expense, 5, none⟩ rfl rfl
    (fun u hu => absurd hu (List.not_mem_nil u))).2.2.2

end FinanceApp
